import Mathlib

/-!
Verification of the twlived specification against the source.

Shallow embedding of the relevant parts of the twlived repository:
  * src/twlived/utils/pubsub.py     (event bus: BaseEventMeta, Provider)
  * src/twlived/utils/utils.py      (chunked, fails_in_row)
  * src/twlived/downloader/manager.py (download_segments, download_archive loop)
  * src/twlived/downloader/playlist.py (TwitchVODPlaylist, TwitchLivePlaylist)
  * src/twlived/tracker/base.py     (stream_info_to_event)
  * src/twlived/tracker/regular.py  (RegularTracker.run tick)
  * src/twlived/tracker/webhook.py  (WebhookTracker.on_streams_post)
  * src/twlived/twitch/adapters.py  (parse_duration)

Python machine-level details that matter are modelled explicitly: negative
list slicing, str.rstrip character-set semantics, collections.deque maxlen
eviction, timedelta(...).seconds truncation, and dataclass equality that
excludes fields declared with compare=False.
-/

namespace Twlived

/-! ## Event bus (src/twlived/utils/pubsub.py)

The event classes that exist in the source form a small fixed hierarchy:
BaseEvent is the root; StreamChanged, StreamOffline and the downloader
events derive directly from it; StreamOnline derives from StreamChanged
(src/twlived/tracker/base.py). -/

inductive EventType
  | baseEvent
  | streamChanged
  | streamOnline
  | streamOffline
  | beginDownloading
  | endDownloading
  deriving DecidableEq, Repr

/-- The direct superclass of each event class, as written in the source
(object, the Python root, is represented by none above baseEvent). -/
def parentType : EventType → Option EventType
  | .baseEvent => none
  | .streamChanged => some .baseEvent
  | .streamOnline => some .streamChanged
  | .streamOffline => some .baseEvent
  | .beginDownloading => some .baseEvent
  | .endDownloading => some .baseEvent

/-- The ancestor list of an event type up to, but excluding, the Python
root object: the routing keys the spec says publish(e) uses. -/
def ancestorsUpToRoot : EventType → List EventType
  | .baseEvent => [.baseEvent]
  | .streamChanged => [.streamChanged, .baseEvent]
  | .streamOnline => [.streamOnline, .streamChanged, .baseEvent]
  | .streamOffline => [.streamOffline, .baseEvent]
  | .beginDownloading => [.beginDownloading, .baseEvent]
  | .endDownloading => [.endDownloading, .baseEvent]

/-- One call to Provider.subscribe: the Python signature accepts a single
event type or a list of event types; the single case is the singleton
list. Subscribers are identified by name. -/
structure SubOp where
  types : List EventType
  sub : String

/-- The Provider.subscribers mapping: defaultdict(list) from event type to
the list of subscribers appended for exactly that type, in order. -/
def emptyProvider : EventType → List String := fun _ => []

/-- Provider.subscribe: for each event type in the argument list, append
the subscriber to that type's list (pubsub.py lines 40-45). -/
def subscribeOp (st : EventType → List String) (op : SubOp) : EventType → List String :=
  op.types.foldl (fun s ty t => if t = ty then s t ++ [op.sub] else s t) st

/-- The registry resulting from a sequence of subscribe calls on a fresh
Provider. -/
def applyOps (ops : List SubOp) : EventType → List String :=
  ops.foldl subscribeOp emptyProvider

/-- Provider.notify (pubsub.py lines 32-38): if the concrete class of the
event is exactly BaseEvent, raise TypeError; otherwise deliver to the
subscribers registered for exactly that class, via subscribers.get, which
does not mutate the registry.  The returned list is the delivery order. -/
def notify (st : EventType → List String) (eventTy : EventType) : Except String (List String) :=
  if eventTy = .baseEvent then
    .error "BaseEvent instance can not be used as event. Supports only subclass instances."
  else
    .ok (st eventTy)

/-- The registrations made for type t by a sequence of subscribe calls, in
call order, one entry per matching type occurrence inside each call. -/
def regsFor (ops : List SubOp) (t : EventType) : List String :=
  (ops.map (fun op => (op.types.filter (fun ty => ty = t)).map (fun _ => op.sub))).flatten

/-! ## Rolling failure window (src/twlived/utils/utils.py, fails_in_row)

fails_in_row(num) is a generator holding a deque of num booleans, initially
all True, with maxlen num.  send(v) appends v (evicting from the left when
full) and yields the OR of the buffer after the append. -/

/-- collections.deque append with a maxlen: when the deque is full the
leftmost element is evicted.  Nat subtraction makes the one formula cover
both cases. -/
def dequeAppend (maxlen : Nat) (buf : List Bool) (v : Bool) : List Bool :=
  (buf ++ [v]).drop (buf.length + 1 - maxlen)

/-- PLAYLIST_UPDATES_TO_FINISH (manager.py line 20). -/
def PLAYLIST_UPDATES_TO_FINISH : Nat := 10

/-- The fails_in_row(10) buffer after the first k values of the push
sequence have been sent (buffer starts as ten Trues). -/
def bufAfter (pushes : Nat → Bool) : Nat → List Bool
  | 0 => List.replicate PLAYLIST_UPDATES_TO_FINISH true
  | k + 1 => dequeAppend PLAYLIST_UPDATES_TO_FINISH (bufAfter pushes k) (pushes k)

/-- The download_archive loop break test at iteration k (manager.py lines
51-57): new_segments_exist_before is the generator's yield after pushing
bool(segments_to_load) of iteration k, and the loop breaks when neither it
nor is_video_recording holds.  recs k is the value the is_video_recording
variable has when the iteration-k test runs (initial fetch for k = 0, the
refetch at the end of iteration k-1 otherwise); pushes k is
bool(segments_to_load) at iteration k. -/
def archiveStops (pushes recs : Nat → Bool) (k : Nat) : Bool :=
  !((bufAfter pushes (k + 1)).any id || recs k)

/-! ## Segment fetcher (src/twlived/downloader/manager.py, download_segments)

The per-chunk asyncio run is represented by the outcome each fetch task
ends with: success with the downloaded body, failure (exception after the
bounded retries), or cancellation (the task was still pending when
asyncio.wait returned at FIRST_EXCEPTION and wait_group cancelled it). -/

inductive FetchOutcome
  | success (body : List Nat)
  | failed
  | cancelled
  deriving DecidableEq, Repr

/-- One input segment (media-sequence number and name) together with the
outcome its fetch task ends with in the run being considered. -/
structure Seg where
  num : Nat
  name : String
  outcome : FetchOutcome
  deriving DecidableEq, Repr

/-- The takewhile predicate in the write loop: not (cancelled or exception). -/
def segSuccess (s : Seg) : Bool :=
  match s.outcome with
  | .success _ => true
  | _ => false

def segFailed (s : Seg) : Bool :=
  match s.outcome with
  | .failed => true
  | _ => false

def segCancelled (s : Seg) : Bool :=
  match s.outcome with
  | .cancelled => true
  | _ => false

/-- task.result() of a successful fetch. -/
def segBody (s : Seg) : List Nat :=
  match s.outcome with
  | .success b => b
  | _ => []

/-- Recursion worker for chunked, structural on a fuel that any bound on
the list length can instantiate. -/
def chunkedAux (n : Nat) : Nat → List Seg → List (List Seg)
  | 0, _ => []
  | _, [] => []
  | fuel + 1, a :: l => (a :: l).take n :: chunkedAux n fuel ((a :: l).drop n)

/-- utils.chunked: successive slices of size n (utils.py lines 46-48).
Python raises ValueError on step 0; the model returns [] there, and every
theorem about it assumes 0 < n. -/
def chunked (l : List Seg) (n : Nat) : List (List Seg) :=
  if n = 0 then [] else chunkedAux n l.length l

/-- The last_successful_segment update after writing the segments of w:
the number of the last written segment, or the previous value when the
chunk wrote nothing. -/
def lastNumOr (acc : Option Nat) (w : List Seg) : Option Nat :=
  match w.getLast? with
  | some s => some s.num
  | none => acc

/-- The body of download_segments (manager.py lines 130-144) over the
chunk list: for each chunk write the results of the longest prefix of
tasks that are neither cancelled nor failed, in input order, updating
last_successful_segment; stop after the first chunk whose cancelled-task
set is nonempty.  Returns (written bodies, last_successful_segment). -/
def runChunks (acc : Option Nat) : List (List Seg) → List (List Nat) × Option Nat
  | [] => ([], acc)
  | c :: cs =>
      let w := c.takeWhile segSuccess
      let acc' := lastNumOr acc w
      if c.any segCancelled then (w.map segBody, acc')
      else
        let r := runChunks acc' cs
        (w.map segBody ++ r.1, r.2)

/-- download_segments: chunk the input by the concurrency and run the
chunk loop with last_successful_segment = None. -/
def downloadSegments (concurrency : Nat) (segs : List Seg) : List (List Nat) × Option Nat :=
  runChunks none (chunked segs concurrency)

/-- A chunk outcome assignment that an asyncio run can actually produce:
tasks are cancelled only after some task has raised
(asyncio.wait FIRST_EXCEPTION). -/
def validChunk (c : List Seg) : Prop :=
  c.any segCancelled = true → c.any segFailed = true

/-- The schedule property the spec's cancellation clause presumes: a chunk
in which some fetch failed still had a sibling in flight to cancel, so the
loop's cancelled-task test observes the failure. -/
def breaksOnFailure (c : List Seg) : Prop :=
  c.any segFailed = true → c.any segCancelled = true

/-! ## Playlists (src/twlived/downloader/playlist.py) -/

/-- Python enumerate(files, start=first): entries (first+i, files[i]). -/
def enumFrom (start : Int) : List String → List (Int × String)
  | [] => []
  | a :: l => (start, a) :: enumFrom (start + 1) l

/-- The last maxlen entries: what a deque with that maxlen holds after
extending with the whole list. -/
def takeLast (maxlen : Nat) (l : List (Int × String)) : List (Int × String) :=
  l.drop (l.length - maxlen)

/-- TwitchLivePlaylist.MAX_SEGMENTS (playlist.py line 147). -/
def MAX_SEGMENTS : Nat := 60 / 2 * 10

/-- TwitchLivePlaylist.update (playlist.py lines 162-177) after the m3u8
fetch, acting on the stored deque: firstN is the fetched playlist's
media_sequence and files its segment names.  last_n is the last stored
number, or first_n - 1 when the deque is empty.  A window slip
(first_n > last_n + 1) raises DownloadingError before touching the deque;
otherwise the fetched entries numbered above last_n are appended, the
deque evicting from the left beyond MAX_SEGMENTS. -/
def liveUpdate (st : List (Int × String)) (firstN : Int) (files : List String) :
    Except String (List (Int × String)) :=
  let lastN : Int := match st.getLast? with
    | some p => p.1
    | none => firstN - 1
  if lastN + 1 < firstN then .error "Missing segment after updating live playlist"
  else .ok (takeLast MAX_SEGMENTS (st ++ (enumFrom firstN files).filter (fun p => lastN < p.1)))

/-- Python l[k:] for an Int k: a negative start counts from the end,
clamped at 0 (Int.toNat clamps). -/
def pyDropFrom (l : List (Int × String)) (k : Int) : List (Int × String) :=
  if 0 ≤ k then l.drop k.toNat else l.drop ((l.length + k).toNat)

/-- Python str.rstrip(chars): strip from the right every trailing
character that is a member of the given character set. -/
def pyRstrip (s : List Char) (cutset : List Char) : List Char :=
  (s.reverse.dropWhile (fun c => c ∈ cutset)).reverse

/-- Python int(s) restricted to the digit strings that segment names
produce; anything else raises ValueError (None here). -/
def parseNatDigits (s : List Char) : Option Nat :=
  if s ≠ [] ∧ s.all Char.isDigit then
    some (s.foldl (fun a c => 10 * a + (c.toNat - '0'.toNat)) 0)
  else none

/-- TwitchVODPlaylist.parse_segment_name (playlist.py lines 141-143):
int(name.rstrip('.ts').rstrip('-muted')) - rstrip strips character sets,
not suffixes. -/
def parseSegmentName (name : String) : Option Nat :=
  parseNatDigits (pyRstrip (pyRstrip name.toList ['.', 't', 's']) ['-', 'm', 'u', 't', 'e', 'd'])

/-- A marker passed to get_segments_after: an integer media-sequence
number or a segment name. -/
inductive Marker
  | int (n : Int)
  | name (s : String)
  deriving DecidableEq, Repr

/-- TwitchVODPlaylist.get_segments_after (playlist.py lines 109-121).
The stored state is always list(enumerate(self.m3u8.files)), so it is
determined by the file list.  None models the exceptions the Python
raises: int() failing on an unparsable name, or segments[-1] on an empty
store. -/
def vodGetSegmentsAfter (files : List String) (marker : Option Marker) :
    Option (List (Int × String)) :=
  match marker with
  | none => some (enumFrom 0 files)
  | some mk =>
      match (match mk with
             | .int k => some k
             | .name s => (parseSegmentName s).map Int.ofNat) with
      | none => none
      | some n =>
          match (enumFrom 0 files).getLast? with
          | none => none
          | some last =>
              if last.1 < n + 1 then some []
              else some (pyDropFrom (enumFrom 0 files) (n + 1))

/-- TwitchLivePlaylist.get_segments_after (playlist.py lines 179-187).
For a name the position of the first stored entry with that name is used
(StopIteration, None here, when absent); for an integer the position is
computed relative to the first stored number (IndexError, None here, on an
empty store).  Either way the result is list(...)[position + 1:]. -/
def liveGetSegmentsAfter (st : List (Int × String)) (marker : Option Marker) :
    Option (List (Int × String)) :=
  match marker with
  | none => some st
  | some (.name s) =>
      match st.findIdx? (fun p => p.2 = s) with
      | none => none
      | some i => some (pyDropFrom st ((i : Int) + 1))
  | some (.int m) =>
      match st.head? with
      | none => none
      | some first => some (pyDropFrom st ((m - first.1) + 1))

/-! ## Stream trackers (src/twlived/tracker/base.py, regular.py) -/

/-- StreamInfo as compared by the derived StreamChanged event: the raw
payload field is declared with compare=False in the dataclass and so does
not take part in equality; it is omitted here. -/
structure StreamInfo where
  channel_name : String
  channel_id : String
  game : String
  status : String
  started_at : Nat
  deriving DecidableEq, Repr

/-- The tracker events.  Distinct constructors model distinct Python
classes: dataclass equality is False across classes, and StreamOnline is
the subclass of StreamChanged carrying the same fields. -/
inductive TrackerEvent
  | streamChanged (info : StreamInfo)
  | streamOnline (info : StreamInfo)
  | streamOffline (channel_name : String)
  deriving DecidableEq, Repr

/-- RegularTracker.run, one polling tick (regular.py lines 22-36): the
state is the _is_channel_online dict in channel order; online is the
channel-to-StreamInfo dict built from get_streams.  For each channel whose
boolean status changed, publish StreamOnline.from_stream_info on going
online and StreamOffline on going offline, then store the new status.
Returns (published events in order, new state). -/
def regularTick (st : List (String × Bool)) (online : String → Option StreamInfo) :
    List TrackerEvent × List (String × Bool) :=
  (st.filterMap (fun p =>
      match online p.1 with
      | some info => if p.2 then none else some (TrackerEvent.streamOnline info)
      | none => if p.2 then some (TrackerEvent.streamOffline p.1) else none),
   st.map (fun p => (p.1, (online p.1).isSome)))

/-- The per-channel event of one tick, written the way the amended claim
reads: StreamOnline when previously offline and now online, StreamOffline
when previously online and now absent, nothing otherwise, and never
StreamChanged. -/
def expectedTickEvents (st : List (String × Bool)) (online : String → Option StreamInfo) :
    List TrackerEvent :=
  match st with
  | [] => []
  | (ch, prev) :: rest =>
      (match prev, online ch with
       | false, some info => [TrackerEvent.streamOnline info]
       | true, none => [TrackerEvent.streamOffline ch]
       | _, _ => []) ++ expectedTickEvents rest online

/-- True for channels with no live event yet:
isinstance(last_event, StreamOffline) or not last_event. -/
def isOfflineOrNone : Option TrackerEvent → Bool
  | none => true
  | some (.streamOffline _) => true
  | some _ => false

/-- StreamTrackerBase.stream_info_to_event (base.py lines 74-87): build
StreamChanged from the info (StreamOffline when there is none), publish a
derived StreamOnline when the channel had no live last event, then publish
the event itself unless it equals the stored last event, updating the
store.  Returns (published events in order, new last event for the
channel). -/
def streamInfoToEvent (last : Option TrackerEvent) (channel : String)
    (info : Option StreamInfo) : List TrackerEvent × Option TrackerEvent :=
  let event := match info with
    | some i => TrackerEvent.streamChanged i
    | none => TrackerEvent.streamOffline channel
  let onlineEvs := match info, isOfflineOrNone last with
    | some i, true => [TrackerEvent.streamOnline i]
    | _, _ => []
  if last = some event then (onlineEvs, last)
  else (onlineEvs ++ [event], some event)

/-! ## Webhook tracker (src/twlived/tracker/webhook.py) -/

/-- The WebhookTracker state touched by on_streams_post: the
_event_ids deque (maxlen 100) and the per-channel _last_event map. -/
structure WebhookState where
  eventIds : List String
  lastEvent : String → Option TrackerEvent

/-- A POST notification request as on_streams_post sees it after aiohttp
parsing.  sigOk abstracts hmac.compare_digest of the X-Hub-Signature
header against the HMAC-SHA256 of the raw body; eventId is the
Twitch-Notification-Id header with the empty string for a missing or
empty value; payload is the stream record parsed from the body, None when
the data array is empty. -/
structure PostRequest where
  channel : String
  sigOk : Bool
  eventId : String
  payload : Option StreamInfo

/-- WebhookTracker.on_streams_post (webhook.py lines 85-104) together with
the validate_channel decorator (lines 21-30).  Returns the new state, the
HTTP status, and the published events.  Faithful detail: the accepted
notification id is never appended to eventIds - the handler only reads the
deque through already_published. -/
def onStreamsPost (channels : List String) (st : WebhookState) (req : PostRequest) :
    WebhookState × Nat × List TrackerEvent :=
  if req.channel ∈ channels then
    if req.sigOk then
      if req.eventId = "" then (st, 404, [])
      else if st.eventIds.contains req.eventId then (st, 200, [])
      else
        let r := streamInfoToEvent (st.lastEvent req.channel) req.channel req.payload
        ({ st with lastEvent := fun ch => if ch = req.channel then r.2 else st.lastEvent ch },
         200, r.1)
    else (st, 403, [])
  else (st, 400, [])

/-! ## Event metaclass (src/twlived/utils/pubsub.py, BaseEventMeta) -/

/-- The two attributes BaseEventMeta maintains on every event class. -/
structure EventClassInfo where
  level : Nat
  maxLevel : Nat
  deriving DecidableEq, Repr

/-- BaseEventMeta.__new__ (pubsub.py lines 9-21): start from level 0 and
the max_inheritance_level keyword (default 0), fold over the bases keeping
the keyword only until a base with a level at least the current one is
seen, then fail when the resulting level exceeds the resulting max. -/
def newEventClass (name : String) (maxKw : Nat) (bases : List EventClassInfo) :
    Except String EventClassInfo :=
  let c := bases.foldl
    (fun c b => if c.level ≤ b.level then ⟨b.level + 1, b.maxLevel⟩ else c)
    ⟨0, maxKw⟩
  if c.maxLevel < c.level then
    .error (name ++ " can not be created. Inheritance level exceeded")
  else .ok c

/-! ## Duration parsing (src/twlived/twitch/adapters.py, parse_duration)

The regex (?:(\d+)h)?(?:(\d+)m)?(?:(\d+)s)? is deterministic on ASCII
input: after a maximal digit run the specific unit letter must follow, and
a unit letter is never a digit, so backtracking into a shorter digit run
cannot succeed; fullmatch therefore equals the sequential three-component
parse below consuming the whole string.  Two faithful details of the
Python: any(duration_match.groupdict()) iterates the dict's keys, which
are nonempty strings, so the no-component ValueError branch is unreachable
whenever the regex matches (the empty string included); and
timedelta(...).seconds is the seconds field of the normalised timedelta,
i.e. the total mod 86400, not the total. -/

/-- Value of a digit run, as int() computes it. -/
def valDigits (ds : List Char) : Nat :=
  ds.foldl (fun a c => 10 * a + (c.toNat - '0'.toNat)) 0

/-- One optional (\d+)u component: consume a maximal nonempty digit run
followed by the unit letter, or consume nothing. -/
def component (unit : Char) (s : List Char) : Option Nat × List Char :=
  let ds := s.takeWhile Char.isDigit
  match s.dropWhile Char.isDigit with
  | c :: rest' => if ds ≠ [] ∧ c = unit then (some (valDigits ds), rest') else (none, s)
  | [] => (none, s)

/-- fullmatch of the duration regex: the three components in order, with
the whole string consumed. -/
def matchDuration (s : List Char) : Option (Option Nat × Option Nat × Option Nat) :=
  let h := component 'h' s
  let m := component 'm' h.2
  let sec := component 's' m.2
  if sec.2 = [] then some (h.1, m.1, sec.1) else none

/-- parse_duration (adapters.py lines 246-251). -/
def parse_duration (s : String) : Except String Nat :=
  match matchDuration s.toList with
  | none => .error "Duration string can not be parsed into duration"
  | some (h, m, sec) => .ok ((h.getD 0 * 3600 + m.getD 0 * 60 + sec.getD 0) % 86400)

/-- Rendering of an optional component from its digit run. -/
def renderComp (unit : Char) : Option (List Char) → List Char
  | none => []
  | some ds => ds ++ [unit]

/-- The duration string with the given optional digit runs as hours,
minutes and seconds components. -/
def renderDuration (h m s : Option (List Char)) : List Char :=
  renderComp 'h' h ++ renderComp 'm' m ++ renderComp 's' s

/-- The numeric value of an optional digit-run component. -/
def compVal : Option (List Char) → Nat
  | none => 0
  | some ds => valDigits ds

/-- A well-formed optional component: absent, or a nonempty digit run. -/
def goodComp : Option (List Char) → Prop
  | none => True
  | some ds => ds ≠ [] ∧ ds.all Char.isDigit = true

/-! ## Concrete fixtures used by individual claims -/

/-- A stream snapshot of channel foo with one title. -/
def fooInfoA : StreamInfo := ⟨"foo", "1", "game", "title A", 0⟩

/-- The same channel snapshot with a different title. -/
def fooInfoB : StreamInfo := ⟨"foo", "1", "game", "title B", 0⟩

/-- A fresh webhook tracker state: empty notification-id deque, no last
events. -/
def webhookState0 : WebhookState := ⟨[], fun _ => none⟩

/-- A valid-signature POST notification for channel foo with notification
id n1 and the given payload. -/
def postReq (info : StreamInfo) : PostRequest := ⟨"foo", true, "n1", some info⟩

/-!
# Theorems
-/

theorem subscribeOp_apply (st : EventType → List String) (op : SubOp) (t : EventType) :
    subscribeOp st op t = st t ++ (op.types.filter (fun ty => ty = t)).map (fun _ => op.sub) := by
  unfold subscribeOp
  induction op.types generalizing st with
  | nil => simp
  | cons ty tys ih =>
      simp only [List.foldl_cons, List.filter_cons]
      rw [ih]
      by_cases hty : ty = t
      · subst hty
        simp
      · have hne : ¬ (decide (ty = t) = true) := by simpa using hty
        have hne' : ¬ t = ty := fun h => hty h.symm
        simp [hne, hne']

theorem applyOps_eq_regsFor (ops : List SubOp) (t : EventType) :
    applyOps ops t = regsFor ops t := by
  unfold applyOps regsFor
  have main : ∀ (l : List SubOp) (st : EventType → List String),
      (l.foldl subscribeOp st) t
        = st t ++ (l.map (fun op => (op.types.filter (fun ty => ty = t)).map (fun _ => op.sub))).flatten := by
    intro l
    induction l with
    | nil => intro st; simp
    | cons op ops ih =>
        intro st
        simp only [List.foldl_cons, List.map_cons, List.flatten_cons]
        rw [ih, subscribeOp_apply]
        simp [List.append_assoc]
  simpa [emptyProvider] using main ops emptyProvider

/-- C1 counterexample: StreamChanged is a proper ancestor of StreamOnline
(an ancestor type short of the root), yet publishing an event whose
concrete type is StreamOnline on a bus whose only registration is for
StreamChanged delivers to nobody - Provider.notify looks up only the
exact concrete type.  The claim requires the subscriber to receive the
event once. -/
theorem c1_counterexample :
    notify (applyOps [⟨[.streamChanged], "sub1"⟩]) .streamOnline = .ok []
    ∧ EventType.streamChanged ∈ ancestorsUpToRoot .streamOnline
    ∧ EventType.streamChanged ≠ .streamOnline
    ∧ ([] : List String) ≠ ["sub1"] := by
  refine ⟨rfl, by decide, by decide, by decide⟩

/-- C1 amended: on publish of an event whose concrete type is not
BaseEvent itself, the bus delivers the event exactly once per registration
made for that exact concrete type, in registration order; a subscriber
registered only for an ancestor type (such as the parent of a derived
event type) receives nothing. -/
theorem c1_amended (ops : List SubOp) (t : EventType) (h : t ≠ .baseEvent) :
    notify (applyOps ops) t = .ok (regsFor ops t) := by
  unfold notify
  rw [if_neg h, applyOps_eq_regsFor]

theorem c1_amended_witness :
    notify (applyOps [⟨[.streamChanged, .streamOnline], "a"⟩, ⟨[.streamOnline], "b"⟩])
        .streamOnline = .ok ["a", "b"] := by
  rw [c1_amended [⟨[.streamChanged, .streamOnline], "a"⟩, ⟨[.streamOnline], "b"⟩]
    .streamOnline (by decide)]
  rfl

/-- C10: Provider.notify raises TypeError whenever the concrete class of
the event is exactly BaseEvent, whatever the registry holds; the error is
raised before the delivery loop, so no subscriber's handle runs, and
notify reads the registry only through subscribers.get, which never
mutates it. -/
theorem c10_notify_base_event (st : EventType → List String) :
    notify st .baseEvent
      = .error "BaseEvent instance can not be used as event. Supports only subclass instances." :=
  rfl

/-- C9: the code, evaluated at the failing input.  BaseEvent is created
with max_inheritance_level=1 at level 0 and a direct subclass such as
StreamChanged lands at level 1 and is accepted, but the metaclass computes
level 2 for a class derived from it - exactly how tracker/base.py defines
StreamOnline from StreamChanged - and 2 exceeds the inherited maximum 1,
so BaseEventMeta raises ValueError instead of creating the class. -/
theorem c9_metaclass_rejects_stream_online :
    newEventClass "BaseEvent" 1 [] = .ok ⟨0, 1⟩
    ∧ newEventClass "StreamChanged" 0 [⟨0, 1⟩] = .ok ⟨1, 1⟩
    ∧ newEventClass "StreamOnline" 0 [⟨1, 1⟩]
        = .error "StreamOnline can not be created. Inheritance level exceeded" :=
  ⟨rfl, rfl, rfl⟩

/-- C3: the code, evaluated at the failing input.  Two POSTs carry the
same Twitch-Notification-Id n1 with valid signatures and different online
payloads.  The first is accepted with 200, publishes two events, and
leaves the _event_ids deque empty - on_streams_post never records the id
it just processed.  The second request, a duplicate by id, is therefore
processed again and publishes a further StreamChanged event, where the
claim requires a recorded id and no further publish. -/
theorem c3_duplicate_id_republishes :
    (onStreamsPost ["foo"] webhookState0 (postReq fooInfoA)).2.1 = 200
    ∧ (onStreamsPost ["foo"] webhookState0 (postReq fooInfoA)).2.2
        = [.streamOnline fooInfoA, .streamChanged fooInfoA]
    ∧ (onStreamsPost ["foo"] webhookState0 (postReq fooInfoA)).1.eventIds = []
    ∧ (onStreamsPost ["foo"]
        (onStreamsPost ["foo"] webhookState0 (postReq fooInfoA)).1 (postReq fooInfoB)).2
        = (200, [.streamChanged fooInfoB])
    ∧ fooInfoA ≠ fooInfoB := by
  refine ⟨rfl, rfl, rfl, rfl, by decide⟩

/-- C7 counterexample: channel foo is online in two consecutive samples
and its derived StreamChanged value differs between them (the title
changed), yet the second tick publishes nothing - RegularTracker.run only
compares the boolean online status and never emits StreamChanged.  The
claim requires a StreamChanged event on the second tick. -/
theorem c7_counterexample :
    regularTick [("foo", false)]
        (fun ch => if ch = "foo" then some ⟨"foo", "1", "g", "title A", 0⟩ else none)
      = ([.streamOnline ⟨"foo", "1", "g", "title A", 0⟩], [("foo", true)])
    ∧ (regularTick [("foo", true)]
        (fun ch => if ch = "foo" then some ⟨"foo", "1", "g", "title B", 0⟩ else none)).1
      = []
    ∧ (⟨"foo", "1", "g", "title A", 0⟩ : StreamInfo) ≠ ⟨"foo", "1", "g", "title B", 0⟩ := by
  refine ⟨rfl, rfl, by decide⟩

/-- C8 counterexample: parse_duration accepts the empty string (no
component present) and returns 0 instead of failing - the
any(groupdict()) guard in the source tests the dict's keys, which are
always truthy - and it maps 25h to timedelta(hours=25).seconds = 3600
rather than to the total 90000, so the map is not onto the corresponding
total second counts for large components; 1h maps to the same 3600, so it
is not injective either. -/
theorem c8_counterexample :
    parse_duration "" = .ok 0
    ∧ parse_duration "25h" = .ok 3600
    ∧ parse_duration "1h" = .ok 3600
    ∧ (90000 : Nat) ≠ 3600 := by
  refine ⟨rfl, rfl, rfl, by decide⟩

/-- C5 counterexample: a live playlist stores entries 100, 101, 102 and
the marker 98 lies below the first stored entry.  Entries strictly greater
than 98 are all three, but get_segments_after computes the relative
position 98 - 100 = -2 and slices list[-1:], returning only the last
entry - Python's negative slicing counts from the end. -/
theorem c5_counterexample :
    liveGetSegmentsAfter [(100, "100.ts"), (101, "101.ts"), (102, "102.ts")]
        (some (.int 98)) = some [(102, "102.ts")]
    ∧ ([(100, "100.ts"), (101, "101.ts"), (102, "102.ts")].filter
        (fun p => decide ((98 : Int) < p.1)))
      = [(100, "100.ts"), (101, "101.ts"), (102, "102.ts")]
    ∧ (some [((102 : Int), "102.ts")] : Option (List (Int × String)))
      ≠ some [(100, "100.ts"), (101, "101.ts"), (102, "102.ts")] := by
  refine ⟨rfl, rfl, by decide⟩

/-- C2 counterexample: with chunk size 1 the chunks are singleton tasks,
asyncio.wait on a lone failed task returns with an empty pending set, so
wait_group cancels nothing and the loop does not break.  Segment 0 fails,
yet the body of segment 1 is written after the failure and the function
returns marker 1, where the claim requires no write past the failed
segment and the none marker (no strictly preceding segment succeeded). -/
theorem c2_counterexample :
    downloadSegments 1 [⟨0, "0.ts", .failed⟩, ⟨1, "1.ts", .success [7]⟩] = ([[7]], some 1)
    ∧ downloadSegments 1 [⟨0, "0.ts", .failed⟩, ⟨1, "1.ts", .success [7]⟩]
        ≠ (([] : List (List Nat)), (none : Option Nat)) := by
  refine ⟨rfl, by decide⟩

theorem regularTick_fst (st : List (String × Bool)) (online : String → Option StreamInfo) :
    (regularTick st online).1 = expectedTickEvents st online := by
  induction st with
  | nil => rfl
  | cons p rest ih =>
      obtain ⟨ch, prev⟩ := p
      simp only [regularTick, List.filterMap_cons] at *
      cases hon : online ch <;> cases prev <;>
        simp [expectedTickEvents, hon, ih]

theorem expectedTickEvents_no_changed (st : List (String × Bool))
    (online : String → Option StreamInfo) :
    (expectedTickEvents st online).all (fun e => match e with
      | .streamChanged _ => false
      | _ => true) = true := by
  induction st with
  | nil => rfl
  | cons p rest ih =>
      obtain ⟨ch, prev⟩ := p
      cases hon : online ch <;> cases prev <;>
        simp [expectedTickEvents, hon, ih]

/-- C7 amended: on every polling tick RegularTracker emits, in channel
order, StreamOnline for each channel previously offline and now online
and StreamOffline for each channel previously online and now absent, and
emits nothing otherwise; in particular it never emits StreamChanged - an
online channel whose derived StreamChanged value differs from the
previous sample produces no event, because the tracker compares only the
boolean online status. -/
theorem c7_amended (st : List (String × Bool)) (online : String → Option StreamInfo) :
    (regularTick st online).1 = expectedTickEvents st online
    ∧ (regularTick st online).2 = st.map (fun p => (p.1, (online p.1).isSome))
    ∧ ((regularTick st online).1.all (fun e => match e with
        | .streamChanged _ => false
        | _ => true)) = true := by
  refine ⟨regularTick_fst st online, rfl, ?_⟩
  rw [regularTick_fst st online]
  exact expectedTickEvents_no_changed st online

theorem bufAfter_length (p : Nat → Bool) (k : Nat) : (bufAfter p k).length = 10 := by
  induction k with
  | zero => simp [bufAfter, PLAYLIST_UPDATES_TO_FINISH]
  | succ k ih =>
      simp only [bufAfter, dequeAppend, PLAYLIST_UPDATES_TO_FINISH, List.length_drop,
        List.length_append, List.length_cons, List.length_nil, ih]

theorem bufAfter_eq (p : Nat → Bool) (k : Nat) :
    bufAfter p k
      = List.replicate (10 - k) true ++ (List.range' (k - 10) (min k 10)).map p := by
  induction k with
  | zero => simp [bufAfter, PLAYLIST_UPDATES_TO_FINISH]
  | succ k ih =>
      have hlen := bufAfter_length p k
      have hstep : bufAfter p (k + 1) = (bufAfter p k ++ [p k]).drop 1 := by
        simp only [bufAfter, dequeAppend, PLAYLIST_UPDATES_TO_FINISH, hlen]
      rw [hstep, ih]
      by_cases hk : k < 10
      · have h0 : k - 10 = 0 := by omega
        have h1 : min k 10 = k := by omega
        have h2 : (k + 1) - 10 = 0 := by omega
        have h3 : min (k + 1) 10 = k + 1 := by omega
        have h4 : 10 - k = (10 - (k + 1)) + 1 := by omega
        rw [h0, h1, h2, h3, h4, List.replicate_succ]
        have hconcat : List.range' 0 (k + 1) = List.range' 0 k ++ [k] := by
          have := @List.range'_concat 1 0 k
          simpa using this
        simp [hconcat, List.append_assoc]
      · have h0 : 10 - k = 0 := by omega
        have h2 : 10 - (k + 1) = 0 := by omega
        have h1 : min k 10 = 10 := by omega
        have h3 : min (k + 1) 10 = 10 := by omega
        rw [h0, h1, h2, h3]
        have hsucc : List.range' (k - 10) 10 = (k - 10) :: List.range' (k - 10 + 1) 9 := by
          have := List.range'_succ (k - 10) 9 1
          simpa using this
        have hconcat : List.range' (k - 9) 10 = List.range' (k - 9) 9 ++ [k] := by
          have := @List.range'_concat 1 (k - 9) 9
          have h9 : k - 9 + 1 * 9 = k := by omega
          rw [h9] at this
          exact this
        have harg : k - 10 + 1 = k - 9 := by omega
        have harg2 : k + 1 - 10 = k - 9 := by omega
        rw [harg2, hconcat]
        simp [hsucc, harg, List.append_assoc]

theorem bufAfter_any (p : Nat → Bool) (m : Nat) :
    ((bufAfter p m).any id = true)
      ↔ (m < 10 ∨ ∃ j, m - 10 ≤ j ∧ j < m ∧ p j = true) := by
  rw [bufAfter_eq]
  have hsum : (m - 10) + min m 10 = m := by omega
  constructor
  · intro h
    rcases List.any_eq_true.mp h with ⟨x, hx, hid⟩
    rcases List.mem_append.mp hx with hx | hx
    · exact Or.inl (by
        rcases List.mem_replicate.mp hx with ⟨hne, _⟩
        omega)
    · rcases List.mem_map.mp hx with ⟨j, hj, rfl⟩
      rcases List.mem_range'_1.mp hj with ⟨hj1, hj2⟩
      exact Or.inr ⟨j, hj1, by omega, hid⟩
  · intro h
    apply List.any_eq_true.mpr
    rcases h with h | ⟨j, hj1, hj2, hpj⟩
    · exact ⟨true, List.mem_append.mpr (Or.inl (List.mem_replicate.mpr ⟨by omega, rfl⟩)), rfl⟩
    · exact ⟨p j, List.mem_append.mpr (Or.inr (List.mem_map.mpr
        ⟨j, List.mem_range'_1.mpr ⟨hj1, by omega⟩, rfl⟩)), hpj⟩

/-- C4: the archive loop's break test at iteration k succeeds exactly when
the is_video_recording variable is false and each of the last
PLAYLIST_UPDATES_TO_FINISH = 10 iterations (which exist: k is at least 9,
the generator's buffer being primed with Trues) pushed an empty
segments_to_load; and in an execution where is_recording is false
throughout and every refresh yields no new segments, the loop does not
break at iterations 0 through 8 and breaks at iteration 9, i.e. exits
after the 10th empty refresh. -/
theorem c4_archive_termination :
    (∀ pushes recs k, archiveStops pushes recs k = true
        ↔ (recs k = false ∧ 9 ≤ k ∧ ∀ j, j ≤ k → k ≤ j + 9 → pushes j = false))
    ∧ archiveStops (fun _ => false) (fun _ => false) 9 = true
    ∧ (∀ k, k < 9 → archiveStops (fun _ => false) (fun _ => false) k = false) := by
  refine ⟨?_, by rfl, by decide⟩
  intro pushes recs k
  unfold archiveStops
  constructor
  · intro h
    have h1 : ((bufAfter pushes (k + 1)).any id || recs k) = false := by
      cases hh : ((bufAfter pushes (k + 1)).any id || recs k) with
      | false => rfl
      | true => rw [hh] at h; simp at h
    have h2 : (bufAfter pushes (k + 1)).any id = false := by
      cases hb : (bufAfter pushes (k + 1)).any id with
      | false => rfl
      | true => rw [hb] at h1; simp at h1
    have h3 : recs k = false := by
      cases hr : recs k with
      | false => rfl
      | true => rw [hr] at h1; simp at h1
    have hnot : ¬ ((k + 1) < 10 ∨ ∃ j, (k + 1) - 10 ≤ j ∧ j < k + 1 ∧ pushes j = true) := by
      intro hc
      have := (bufAfter_any pushes (k + 1)).mpr hc
      rw [h2] at this
      exact Bool.false_ne_true this
    push_neg at hnot
    obtain ⟨hk9, hall⟩ := hnot
    refine ⟨h3, by omega, ?_⟩
    intro j hj1 hj2
    have hj3 : (k + 1) - 10 ≤ j := by omega
    have hj4 : j < k + 1 := by omega
    cases hpj : pushes j with
    | false => rfl
    | true => exact absurd hpj (hall j hj3 hj4)
  · rintro ⟨hrec, hk9, hall⟩
    have hany : (bufAfter pushes (k + 1)).any id = false := by
      cases hb : (bufAfter pushes (k + 1)).any id with
      | false => rfl
      | true =>
          rcases (bufAfter_any pushes (k + 1)).mp hb with h | ⟨j, hj1, hj2, hpj⟩
          · omega
          · have := hall j (by omega) (by omega)
            rw [this] at hpj
            exact absurd hpj Bool.false_ne_true
    rw [hany, hrec]
    rfl

theorem c4_archive_termination_witness :
    archiveStops (fun j => decide (j < 11)) (fun _ => false) 20 = true := by
  refine (c4_archive_termination.1 (fun j => decide (j < 11)) (fun _ => false) 20).mpr
    ⟨rfl, by decide, ?_⟩
  intro j h1 h2
  simp only [decide_eq_false_iff_not]
  omega

theorem enumFrom_num_bounds (files : List String) :
    ∀ (f : Int), ∀ q ∈ enumFrom f files, f ≤ q.1 ∧ q.1 < f + files.length := by
  induction files with
  | nil => intro f q hq; simp [enumFrom] at hq
  | cons a files ih =>
      intro f q hq
      simp only [enumFrom, List.mem_cons] at hq
      rcases hq with rfl | hq
      · simp only [List.length_cons]
        constructor
        · exact le_refl f
        · have : (0 : Int) < files.length + 1 := by positivity
          omega
      · have := ih (f + 1) q hq
        simp only [List.length_cons]
        push_cast at this ⊢
        omega

theorem enumFrom_pairwise (files : List String) :
    ∀ (f : Int), ((enumFrom f files).map Prod.fst).Pairwise (· < ·) := by
  induction files with
  | nil => intro f; simp [enumFrom]
  | cons a files ih =>
      intro f
      simp only [enumFrom, List.map_cons]
      rw [List.pairwise_cons]
      refine ⟨?_, ih (f + 1)⟩
      intro x hx
      rcases List.mem_map.mp hx with ⟨q, hq, rfl⟩
      have := (enumFrom_num_bounds files (f + 1) q hq).1
      omega

theorem pairwise_last_le (l : List (Int × String)) (p : Int × String)
    (hpw : (l.map Prod.fst).Pairwise (· < ·)) (hlast : l.getLast? = some p) :
    ∀ q ∈ l, q.1 ≤ p.1 := by
  induction l with
  | nil => simp at hlast
  | cons a l ih =>
      cases l with
      | nil =>
          simp only [List.getLast?_singleton, Option.some.injEq] at hlast
          subst hlast
          intro q hq
          simp only [List.mem_singleton] at hq
          subst hq
          exact le_refl _
      | cons b l' =>
          rw [List.getLast?_cons_cons] at hlast
          rw [List.map_cons, List.pairwise_cons] at hpw
          have hmem : p ∈ b :: l' := by
            have hp : p ∈ (b :: l').getLast? := by rw [hlast]; rfl
            rcases List.mem_getLast?_eq_getLast hp with ⟨hne, rfl⟩
            exact List.getLast_mem hne
          intro q hq
          rcases List.mem_cons.mp hq with rfl | hq
          · have := hpw.1 p.1 (List.mem_map.mpr ⟨p, hmem, rfl⟩)
            omega
          · exact ih hpw.2 hlast q hq

/-- C6: on a live playlist refresh, when the fetched first media-sequence
number is at most one past the last stored number (or the store is empty,
in which case last_n is first_n - 1 and no gap is possible), exactly the
fetched entries whose number exceeds the last stored number are appended
to the segment deque (the deque evicting from the left beyond
MAX_SEGMENTS), and strictly increasing media-sequence order is preserved;
when the fetched first number exceeds the last stored number plus one the
refresh raises DownloadingError, and since the raise precedes the extend
in the source the stored deque is left unchanged - the code never
silently resumes past the gap. -/
theorem c6_live_update :
    (∀ st (firstN : Int) files p, st.getLast? = some p → p.1 + 1 < firstN →
        liveUpdate st firstN files = .error "Missing segment after updating live playlist")
    ∧ (∀ (firstN : Int) files,
        liveUpdate [] firstN files = .ok (takeLast MAX_SEGMENTS (enumFrom firstN files)))
    ∧ (∀ st (firstN : Int) files p, st.getLast? = some p → firstN ≤ p.1 + 1 →
        liveUpdate st firstN files
          = .ok (takeLast MAX_SEGMENTS
              (st ++ (enumFrom firstN files).filter (fun q => p.1 < q.1))))
    ∧ (∀ st (firstN : Int) files q, liveUpdate st firstN files = .ok q →
        ((st.map Prod.fst).Pairwise (· < ·)) → ((q.map Prod.fst).Pairwise (· < ·))) := by
  have hfilter_pw : ∀ (c : Int) (f : Int) (files : List String),
      (((enumFrom f files).filter (fun q => decide (c < q.1))).map Prod.fst).Pairwise (· < ·) := by
    intro c f files
    refine List.Pairwise.sublist ?_ (enumFrom_pairwise files f)
    exact (List.filter_sublist _).map Prod.fst
  have htakeLast_pw : ∀ (l : List (Int × String)),
      ((l.map Prod.fst).Pairwise (· < ·)) →
        (((takeLast MAX_SEGMENTS l).map Prod.fst).Pairwise (· < ·)) := by
    intro l hl
    refine List.Pairwise.sublist ?_ hl
    exact (List.drop_sublist _ _).map Prod.fst
  refine ⟨?_, ?_, ?_, ?_⟩
  · intro st firstN files p hlast hgap
    unfold liveUpdate
    rw [hlast]
    simp only
    rw [if_pos (by omega)]
  · intro firstN files
    unfold liveUpdate
    simp only [List.getLast?_nil]
    rw [if_neg (by omega)]
    have : (enumFrom firstN files).filter (fun q => decide (firstN - 1 < q.1))
        = enumFrom firstN files := by
      apply List.filter_eq_self.mpr
      intro q hq
      have := (enumFrom_num_bounds files firstN q hq).1
      simp only [decide_eq_true_eq]
      omega
    rw [this]
    simp [takeLast]
  · intro st firstN files p hlast hle
    unfold liveUpdate
    rw [hlast]
    simp only
    rw [if_neg (by omega)]
  · intro st firstN files q hok hpw
    unfold liveUpdate at hok
    cases hlast : st.getLast? with
    | none =>
        have hst : st = [] := List.getLast?_eq_none_iff.mp hlast
        subst hst
        rw [hlast] at hok
        simp only at hok
        rw [if_neg (by omega)] at hok
        injection hok with hq
        subst hq
        apply htakeLast_pw
        simpa using hfilter_pw (firstN - 1) firstN files
    | some p =>
        rw [hlast] at hok
        simp only at hok
        by_cases hgap : p.1 + 1 < firstN
        · rw [if_pos (by omega)] at hok
          cases hok
        · rw [if_neg (by omega)] at hok
          injection hok with hq
          subst hq
          apply htakeLast_pw
          rw [List.map_append, List.pairwise_append]
          refine ⟨hpw, hfilter_pw p.1 firstN files, ?_⟩
          intro a ha b hb
          rcases List.mem_map.mp ha with ⟨qa, hqa, rfl⟩
          rcases List.mem_map.mp hb with ⟨qb, hqb, rfl⟩
          have hqa_le : qa.1 ≤ p.1 := pairwise_last_le st p hpw hlast qa hqa
          have hqb_gt : p.1 < qb.1 := by
            have := (List.mem_filter.mp hqb).2
            simpa using this
          omega

theorem c6_live_update_witness :
    liveUpdate [((100 : Int), "100.ts")] 101 ["101.ts"]
      = .ok [((100 : Int), "100.ts"), (101, "101.ts")] := by
  rw [c6_live_update.2.2.1 [((100 : Int), "100.ts")] 101 ["101.ts"] ((100 : Int), "100.ts")
    rfl (by norm_num)]
  rfl

theorem enumFrom_filter_eq_drop (files : List String) :
    ∀ (f m : Int), f - 1 ≤ m →
      (enumFrom f files).filter (fun p => m < p.1)
        = (enumFrom f files).drop (m + 1 - f).toNat := by
  induction files with
  | nil => intro f m _; simp [enumFrom]
  | cons a files ih =>
      intro f m h
      simp only [enumFrom, List.filter_cons]
      by_cases hf : m < f
      · have h0 : (m + 1 - f).toNat = 0 := by omega
        rw [h0, List.drop_zero, if_pos (by simpa using hf)]
        congr 1
        apply List.filter_eq_self.mpr
        intro q hq
        have := (enumFrom_num_bounds files (f + 1) q hq).1
        simp only [decide_eq_true_eq]
        omega
      · push_neg at hf
        rw [if_neg (by simpa using not_lt.mpr hf)]
        have h1 : (m + 1 - f).toNat = (m + 1 - (f + 1)).toNat + 1 := by omega
        rw [h1, List.drop_succ_cons]
        exact ih (f + 1) m (by omega)

theorem enumFrom_getLast?_num (files : List String) :
    ∀ (f : Int), files ≠ [] →
      ∃ a, (enumFrom f files).getLast? = some (f + files.length - 1, a) := by
  induction files with
  | nil => intro f h; exact absurd rfl h
  | cons a files ih =>
      intro f _
      cases files with
      | nil =>
          refine ⟨a, ?_⟩
          simp [enumFrom]
      | cons b rest =>
          obtain ⟨c, hc⟩ := ih (f + 1) (by simp)
          refine ⟨c, ?_⟩
          have hshape : enumFrom f (a :: b :: rest)
              = (f, a) :: enumFrom (f + 1) (b :: rest) := rfl
          have hshape2 : enumFrom (f + 1) (b :: rest)
              = (f + 1, b) :: enumFrom (f + 1 + 1) rest := rfl
          rw [hshape, hshape2, List.getLast?_cons_cons, ← hshape2, hc]
          congr 2
          simp only [List.length_cons]
          push_cast
          ring

theorem vod_after_num (files : List String) (k : Int) (hne : files ≠ []) (hk : -1 ≤ k) :
    vodGetSegmentsAfter files (some (.int k))
      = some ((enumFrom 0 files).filter (fun p => k < p.1)) := by
  obtain ⟨a, hlast⟩ := enumFrom_getLast?_num files 0 hne
  unfold vodGetSegmentsAfter
  rw [hlast]
  simp only
  by_cases hend : (0 : Int) + files.length - 1 < k + 1
  · rw [if_pos hend]
    have : (enumFrom 0 files).filter (fun p => k < p.1) = [] := by
      rw [List.filter_eq_nil_iff]
      intro q hq
      have := (enumFrom_num_bounds files 0 q hq).2
      simp only [decide_eq_true_eq, not_lt]
      omega
    rw [this]
  · rw [if_neg hend]
    rw [enumFrom_filter_eq_drop files 0 k (by omega)]
    unfold pyDropFrom
    rw [if_pos (by omega)]
    have h00 : (k + 1 - 0 : Int).toNat = (k + 1 : Int).toNat := by omega
    rw [h00]

/-- C5 amended: for a nonempty store and an integer marker at least one
below the first stored number (live: marker at least first - 1; VOD,
where numbers start at 0: marker at least -1), get_segments_after returns
exactly the stored entries whose media-sequence number is strictly
greater than the marker, in strictly increasing media-sequence order (the
last of which is the next cursor); a stored name marker behaves as its
entry's number, and a VOD name marker as its parsed number.  Markers two
or more below the first stored number instead hit Python's negative
slicing (the counterexample), and an empty store or an absent/unparsable
name raises. -/
theorem c5_amended :
    (∀ (f : Int) (files : List String) (m : Int), files ≠ [] → f - 1 ≤ m →
        liveGetSegmentsAfter (enumFrom f files) (some (.int m))
          = some ((enumFrom f files).filter (fun p => m < p.1)))
    ∧ (∀ (f : Int) (files : List String) (nm : String) (i : Nat),
        (enumFrom f files).findIdx? (fun p => p.2 = nm) = some i →
        liveGetSegmentsAfter (enumFrom f files) (some (.name nm))
          = some ((enumFrom f files).filter (fun p => f + (i : Int) < p.1)))
    ∧ (∀ (files : List String) (k : Int), files ≠ [] → -1 ≤ k →
        vodGetSegmentsAfter files (some (.int k))
          = some ((enumFrom 0 files).filter (fun p => k < p.1)))
    ∧ (∀ (files : List String) (nm : String) (n : Nat),
        files ≠ [] → parseSegmentName nm = some n →
        vodGetSegmentsAfter files (some (.name nm))
          = some ((enumFrom 0 files).filter (fun p => (n : Int) < p.1)))
    ∧ (∀ (f : Int) (files : List String) (m : Int),
        (((enumFrom f files).filter (fun p => m < p.1)).map Prod.fst).Pairwise (· < ·)) := by
  refine ⟨?_, ?_, ?_, ?_, ?_⟩
  · intro f files m hne hm
    cases files with
    | nil => exact absurd rfl hne
    | cons a rest =>
        have hshape : enumFrom f (a :: rest) = (f, a) :: enumFrom (f + 1) rest := rfl
        unfold liveGetSegmentsAfter
        rw [hshape]
        simp only [List.head?_cons]
        rw [← hshape, enumFrom_filter_eq_drop (a :: rest) f m hm]
        unfold pyDropFrom
        rw [if_pos (by omega)]
        congr 2
        omega
  · intro f files nm i hidx
    have hval : liveGetSegmentsAfter (enumFrom f files) (some (.name nm))
        = some (pyDropFrom (enumFrom f files) ((i : Int) + 1)) := by
      simp only [liveGetSegmentsAfter, hidx]
    rw [hval, enumFrom_filter_eq_drop files f (f + (i : Int)) (by omega)]
    unfold pyDropFrom
    rw [if_pos (by omega)]
    have harg : ((i : Int) + 1).toNat = (f + (i : Int) + 1 - f).toNat := by omega
    rw [harg]
  · intro files k hne hk
    exact vod_after_num files k hne hk
  · intro files nm n hne hparse
    have h2 : vodGetSegmentsAfter files (some (.name nm))
        = vodGetSegmentsAfter files (some (.int (n : Int))) := by
      simp only [vodGetSegmentsAfter, hparse, Option.map_some', Int.ofNat_eq_natCast]
    rw [h2]
    exact vod_after_num files (n : Int) hne (by omega)
  · intro f files m
    refine List.Pairwise.sublist ?_ (enumFrom_pairwise files f)
    exact (List.filter_sublist _).map Prod.fst

theorem c5_amended_witness :
    liveGetSegmentsAfter (enumFrom 100 ["100.ts", "101.ts"]) (some (.int 100))
      = some [((101 : Int), "101.ts")] := by
  rw [c5_amended.1 100 ["100.ts", "101.ts"] 100 (by decide) (by norm_num)]
  rfl

theorem takeWhile_digits (ds : List Char) (h : ds.all Char.isDigit = true) (c : Char)
    (hc : Char.isDigit c = false) (rest : List Char) :
    (ds ++ c :: rest).takeWhile Char.isDigit = ds
    ∧ (ds ++ c :: rest).dropWhile Char.isDigit = c :: rest := by
  induction ds with
  | nil => simp [List.takeWhile_cons, List.dropWhile_cons, hc]
  | cons d ds ih =>
      simp only [List.all_cons, Bool.and_eq_true] at h
      have := ih h.2
      simp [List.takeWhile_cons, List.dropWhile_cons, h.1, this.1, this.2]

theorem component_hit (u : Char) (hu : Char.isDigit u = false) (ds : List Char)
    (hne : ds ≠ []) (hds : ds.all Char.isDigit = true) (rest : List Char) :
    component u (ds ++ u :: rest) = (some (valDigits ds), rest) := by
  obtain ⟨ht, hdp⟩ := takeWhile_digits ds hds u hu rest
  simp only [component, ht, hdp]
  simp [hne]

theorem component_miss (u c : Char) (hcu : c ≠ u) (ds : List Char)
    (hds : ds.all Char.isDigit = true) (hc : Char.isDigit c = false) (rest : List Char) :
    component u (ds ++ c :: rest) = (none, ds ++ c :: rest) := by
  obtain ⟨ht, hdp⟩ := takeWhile_digits ds hds c hc rest
  simp only [component, ht, hdp]
  rw [if_neg (by simp [hcu])]

theorem component_nil (u : Char) : component u [] = (none, []) := rfl

/-- C8 amended: parse_duration maps every string of the duration pattern
(Nh)?(Nm)?(Ns)? - any subset of components present, including none of
them, the empty string in particular - to
(hours*3600 + minutes*60 + seconds) mod 86400, the seconds field of the
normalised timedelta, without ever raising on such strings; durations of
a day or more are hence truncated, and the map is not injective, so it is
not the claimed bijection.  Strings outside the pattern raise
ValueError. -/
theorem c8_amended (h m s : Option (List Char)) (hh : goodComp h) (hm : goodComp m)
    (hs : goodComp s) :
    parse_duration ⟨renderDuration h m s⟩
      = .ok ((compVal h * 3600 + compVal m * 60 + compVal s) % 86400) := by
  have hH : Char.isDigit 'h' = false := by decide
  have hM : Char.isDigit 'm' = false := by decide
  have hS : Char.isDigit 's' = false := by decide
  have hMH : ('m' : Char) ≠ 'h' := by decide
  have hSH : ('s' : Char) ≠ 'h' := by decide
  have hSM : ('s' : Char) ≠ 'm' := by decide
  cases h with
  | some dh =>
      obtain ⟨hne1, hdig1⟩ := hh
      cases m with
      | some dm =>
          obtain ⟨hne2, hdig2⟩ := hm
          cases s with
          | some dsc =>
              obtain ⟨hne3, hdig3⟩ := hs
              simp only [parse_duration, String.toList, renderDuration, renderComp,
                matchDuration, List.append_assoc, List.cons_append, List.singleton_append, List.nil_append,
                component_hit 'h' hH dh hne1 hdig1,
                component_hit 'm' hM dm hne2 hdig2,
                component_hit 's' hS dsc hne3 hdig3]
              rfl
          | none =>
              simp only [parse_duration, String.toList, renderDuration, renderComp,
                matchDuration, List.append_assoc, List.cons_append, List.singleton_append, List.nil_append, List.append_nil,
                component_hit 'h' hH dh hne1 hdig1,
                component_hit 'm' hM dm hne2 hdig2,
                component_nil]
              rfl
      | none =>
          cases s with
          | some dsc =>
              obtain ⟨hne3, hdig3⟩ := hs
              simp only [parse_duration, String.toList, renderDuration, renderComp,
                matchDuration, List.append_assoc, List.cons_append, List.singleton_append, List.nil_append,
                component_hit 'h' hH dh hne1 hdig1,
                component_miss 'm' 's' hSM dsc hdig3 hS,
                component_hit 's' hS dsc hne3 hdig3]
              rfl
          | none =>
              simp only [parse_duration, String.toList, renderDuration, renderComp,
                matchDuration, List.append_assoc, List.cons_append, List.singleton_append, List.nil_append, List.append_nil,
                component_hit 'h' hH dh hne1 hdig1,
                component_nil]
              rfl
  | none =>
      cases m with
      | some dm =>
          obtain ⟨hne2, hdig2⟩ := hm
          cases s with
          | some dsc =>
              obtain ⟨hne3, hdig3⟩ := hs
              simp only [parse_duration, String.toList, renderDuration, renderComp,
                matchDuration, List.append_assoc, List.cons_append, List.singleton_append, List.nil_append,
                component_miss 'h' 'm' hMH dm hdig2 hM,
                component_hit 'm' hM dm hne2 hdig2,
                component_hit 's' hS dsc hne3 hdig3]
              rfl
          | none =>
              simp only [parse_duration, String.toList, renderDuration, renderComp,
                matchDuration, List.append_assoc, List.cons_append, List.singleton_append, List.nil_append,
                List.append_nil,
                component_miss 'h' 'm' hMH dm hdig2 hM,
                component_hit 'm' hM dm hne2 hdig2,
                component_nil]
              rfl
      | none =>
          cases s with
          | some dsc =>
              obtain ⟨hne3, hdig3⟩ := hs
              simp only [parse_duration, String.toList, renderDuration, renderComp,
                matchDuration, List.append_assoc, List.cons_append, List.singleton_append, List.nil_append,
                component_miss 'h' 's' hSH dsc hdig3 hS,
                component_miss 'm' 's' hSM dsc hdig3 hS,
                component_hit 's' hS dsc hne3 hdig3]
              rfl
          | none =>
              simp only [parse_duration, String.toList, renderDuration, renderComp,
                List.nil_append, matchDuration, component_nil]
              rfl

theorem c8_amended_witness :
    parse_duration ⟨renderDuration (some ['2', '5']) none (some ['3'])⟩ = .ok 3603 := by
  rw [c8_amended (some ['2', '5']) none (some ['3']) ⟨by decide, by decide⟩ trivial
    ⟨by decide, by decide⟩]
  rfl

theorem chunkedAux_nil (n : Nat) : ∀ f, chunkedAux n f [] = [] := by
  intro f
  cases f <;> rfl

theorem chunkedAux_congr (n : Nat) (hn : 0 < n) :
    ∀ (f₁ f₂ : Nat) (l : List Seg), l.length ≤ f₁ → l.length ≤ f₂ →
      chunkedAux n f₁ l = chunkedAux n f₂ l := by
  intro f₁
  induction f₁ with
  | zero =>
      intro f₂ l h1 _
      have hl : l = [] := List.eq_nil_of_length_eq_zero (Nat.le_zero.mp h1)
      subst hl
      rw [chunkedAux_nil, chunkedAux_nil]
  | succ f ih =>
      intro f₂ l h1 h2
      cases l with
      | nil => rw [chunkedAux_nil, chunkedAux_nil]
      | cons a l' =>
          cases f₂ with
          | zero => simp at h2
          | succ f₂' =>
              show (a :: l').take n :: chunkedAux n f ((a :: l').drop n)
                  = (a :: l').take n :: chunkedAux n f₂' ((a :: l').drop n)
              congr 1
              apply ih
              · simp only [List.length_drop, List.length_cons] at *
                omega
              · simp only [List.length_drop, List.length_cons] at *
                omega

theorem chunked_nil (n : Nat) : chunked [] n = [] := by
  by_cases h : n = 0 <;> simp [chunked, h, chunkedAux_nil]

theorem chunked_cons (segs : List Seg) (n : Nat) (hn : 0 < n) (hne : segs ≠ []) :
    chunked segs n = segs.take n :: chunked (segs.drop n) n := by
  unfold chunked
  rw [if_neg (by omega), if_neg (by omega)]
  cases segs with
  | nil => exact absurd rfl hne
  | cons a l' =>
      show (a :: l').take n :: chunkedAux n l'.length ((a :: l').drop n)
          = (a :: l').take n :: chunkedAux n ((a :: l').drop n).length ((a :: l').drop n)
      congr 1
      apply chunkedAux_congr n hn
      · simp only [List.length_drop, List.length_cons]
        omega
      · exact le_rfl

theorem lastNumOr_append (acc : Option Nat) (w₁ w₂ : List Seg) :
    lastNumOr acc (w₁ ++ w₂) = lastNumOr (lastNumOr acc w₁) w₂ := by
  cases hw : w₂.getLast? with
  | some s => simp [lastNumOr, List.getLast?_append, hw]
  | none =>
      have h2 : w₂ = [] := List.getLast?_eq_none_iff.mp hw
      subst h2
      simp [lastNumOr]

theorem takeWhile_append_of_all {p : Seg → Bool} (l₁ l₂ : List Seg)
    (h : ∀ x ∈ l₁, p x = true) :
    (l₁ ++ l₂).takeWhile p = l₁ ++ l₂.takeWhile p := by
  induction l₁ with
  | nil => simp
  | cons a l ih =>
      have ha : p a = true := h a (List.mem_cons_self a l)
      simp only [List.cons_append, List.takeWhile_cons, ha, if_true]
      rw [ih (fun x hx => h x (List.mem_cons_of_mem a hx))]

theorem takeWhile_append_of_not_all {p : Seg → Bool} (l₁ l₂ : List Seg)
    (h : ¬ ∀ x ∈ l₁, p x = true) :
    (l₁ ++ l₂).takeWhile p = l₁.takeWhile p := by
  induction l₁ with
  | nil => exact absurd (by intro x hx; simp at hx) h
  | cons a l ih =>
      cases ha : p a with
      | false => simp [List.takeWhile_cons, ha]
      | true =>
          simp only [List.cons_append, List.takeWhile_cons, ha, if_true]
          have h' : ¬ ∀ x ∈ l, p x = true := by
            intro hall
            exact h (fun x hx => by
              rcases List.mem_cons.mp hx with rfl | hx
              · exact ha
              · exact hall x hx)
          rw [ih h']

theorem chunk_nonsuccess_cancelled (c : List Seg) (_hv : validChunk c)
    (hb : breaksOnFailure c) (x : Seg) (hx : x ∈ c) (hxs : segSuccess x = false) :
    c.any segCancelled = true := by
  obtain ⟨nx, namex, ox⟩ := x
  cases ox with
  | success b => exact absurd hxs (by simp [segSuccess])
  | failed =>
      exact hb (List.any_eq_true.mpr ⟨⟨nx, namex, .failed⟩, hx, rfl⟩)
  | cancelled =>
      exact List.any_eq_true.mpr ⟨⟨nx, namex, .cancelled⟩, hx, rfl⟩

theorem chunk_allsuccess_no_cancelled (c : List Seg) (hv : validChunk c)
    (ha : ∀ x ∈ c, segSuccess x = true) :
    c.any segCancelled = false := by
  cases hc : c.any segCancelled with
  | false => rfl
  | true =>
      rcases List.any_eq_true.mp (hv hc) with ⟨x, hx, hfail⟩
      have hs := ha x hx
      obtain ⟨nx, namex, ox⟩ := x
      cases ox with
      | success b => exact absurd hfail (by simp [segFailed])
      | failed => exact absurd hs (by simp [segSuccess])
      | cancelled => exact absurd hfail (by simp [segFailed])

theorem runChunks_spec (k : Nat) (hk : 0 < k) :
    ∀ (N : Nat) (segs : List Seg) (acc : Option Nat), segs.length ≤ N →
      (∀ c ∈ chunked segs k, validChunk c ∧ breaksOnFailure c) →
      runChunks acc (chunked segs k)
        = ((segs.takeWhile segSuccess).map segBody,
           lastNumOr acc (segs.takeWhile segSuccess)) := by
  intro N
  induction N with
  | zero =>
      intro segs acc h1 _
      have hs : segs = [] := List.eq_nil_of_length_eq_zero (Nat.le_zero.mp h1)
      subst hs
      rw [chunked_nil]
      simp [runChunks, lastNumOr]
  | succ N ih =>
      intro segs acc hlen hsched
      by_cases hnil : segs = []
      · subst hnil
        rw [chunked_nil]
        simp [runChunks, lastNumOr]
      · rw [chunked_cons segs k hk hnil] at hsched ⊢
        obtain ⟨hv, hb⟩ := hsched (segs.take k) (List.mem_cons_self _ _)
        have hsched' : ∀ c ∈ chunked (segs.drop k) k, validChunk c ∧ breaksOnFailure c :=
          fun c hc => hsched c (List.mem_cons_of_mem _ hc)
        have hsplit : segs.take k ++ segs.drop k = segs := List.take_append_drop k segs
        by_cases hall : ∀ x ∈ segs.take k, segSuccess x = true
        · have hnc : (segs.take k).any segCancelled = false :=
            chunk_allsuccess_no_cancelled _ hv hall
          have htw : segs.takeWhile segSuccess
              = segs.take k ++ (segs.drop k).takeWhile segSuccess := by
            conv_lhs => rw [← hsplit]
            exact takeWhile_append_of_all _ _ hall
          have htwc : (segs.take k).takeWhile segSuccess = segs.take k :=
            List.takeWhile_eq_self_iff.mpr hall
          have hrec := ih (segs.drop k) (lastNumOr acc (segs.take k)) (by
            simp only [List.length_drop]
            have h0 : 0 < segs.length := List.length_pos.mpr hnil
            omega) hsched'
          simp only [runChunks, htwc, hnc, if_false, Bool.false_eq_true]
          rw [hrec, htw, List.map_append, lastNumOr_append]
        · have hcc : (segs.take k).any segCancelled = true := by
            push_neg at hall
            obtain ⟨x, hx, hxn⟩ := hall
            exact chunk_nonsuccess_cancelled _ hv hb x hx (by
              cases hxe : segSuccess x with
              | false => rfl
              | true => exact absurd hxe hxn)
          have htw : segs.takeWhile segSuccess = (segs.take k).takeWhile segSuccess := by
            conv_lhs => rw [← hsplit]
            exact takeWhile_append_of_not_all _ _ hall
          simp only [runChunks, hcc, if_true]
          rw [htw]

/-- C2 amended: download_segments appends bodies only in input order, and
under the schedule assumption that every chunk containing a failed fetch
also contains a cancelled one (some sibling was still in flight when
asyncio.wait returned at the first exception, so the loop's cancelled-task
test fires) - while cancellations only ever arise from some failure - the
written output is exactly the bodies of the longest all-successful prefix
of the input, and the returned marker is the number of the last segment of
that prefix (none when the prefix is empty).  Without that assumption the
loop can run past a failed chunk, as the counterexample shows. -/
theorem c2_amended (k : Nat) (segs : List Seg) (hk : 0 < k)
    (hsched : ∀ c ∈ chunked segs k, validChunk c ∧ breaksOnFailure c) :
    downloadSegments k segs
      = ((segs.takeWhile segSuccess).map segBody,
         ((segs.takeWhile segSuccess).getLast?).map Seg.num) := by
  have h := runChunks_spec k hk segs.length segs none le_rfl hsched
  rw [downloadSegments, h]
  cases hw : (segs.takeWhile segSuccess).getLast? <;> simp [lastNumOr, hw]

theorem c2_amended_witness :
    downloadSegments 10
      [⟨0, "0.ts", .success [1]⟩, ⟨1, "1.ts", .failed⟩, ⟨2, "2.ts", .cancelled⟩]
      = ([[1]], some 0) := by
  have hsched : ∀ c ∈ chunked
      [⟨0, "0.ts", .success [1]⟩, ⟨1, "1.ts", .failed⟩, ⟨2, "2.ts", .cancelled⟩] 10,
      validChunk c ∧ breaksOnFailure c := by
    intro c hc
    have hch : chunked
        [⟨0, "0.ts", .success [1]⟩, ⟨1, "1.ts", .failed⟩, ⟨2, "2.ts", .cancelled⟩] 10
        = [[⟨0, "0.ts", .success [1]⟩, ⟨1, "1.ts", .failed⟩, ⟨2, "2.ts", .cancelled⟩]] := rfl
    rw [hch, List.mem_singleton] at hc
    subst hc
    exact ⟨fun _ => rfl, fun _ => rfl⟩
  rw [c2_amended 10
    [⟨0, "0.ts", .success [1]⟩, ⟨1, "1.ts", .failed⟩, ⟨2, "2.ts", .cancelled⟩]
    (by decide) hsched]
  rfl

end Twlived
